import Mathlib

/-!
Verification of the n0tif change-detection and cursor-persistence engine.

This file shallowly embeds the UID-based implementation:
  * `internal/storage` (the `EmailState` window store: `AddUID`,
    `GetLastUIDs`, `GetHighestUID`, `SaveEmailState`, `LoadEmailState`), and
  * `internal/email/imap.go` (the `ImapChecker`: `NewImapChecker`,
    `InitializeEmailTracking`, `CheckForNewEmails`, `ResetState`).

Machine integers (Go `uint32` UIDs) are modelled as `Nat`: none of the
operations performed on UIDs (comparison, equality, list membership) can
overflow, so the `% 2^32` reduction is never observable.  Go maps are
modelled as association lists (`LastUIDs`) or membership lists
(`notifiedUIDs`); the code only ever queries membership / per-key lookup,
which the list models implement exactly.  The IMAP session is a
collaborator: a mailbox is a list of messages in sequence-number order
(last = most recently arrived), and `Fetch` over a sequence-number range
is a slice of that list; a fetch outcome carries the delivered summaries
and an optional error, mirroring the channel-then-error-check shape of the
Go code.
-/

/-- Message summary as fetched from the IMAP server: UID, internal date
(instants as naturals, `After` = `>`), subject. -/
structure Message where
  uid : Nat
  date : Nat
  subject : String
deriving DecidableEq

/-- EmailState of `internal/storage`: maps mailbox name to the list of last
seen UIDs, in insertion order (a Go map modelled as an association list). -/
structure EmailState where
  lastUIDs : List (String × List Nat)
deriving DecidableEq

/-- NewEmailState creates a new (empty) email state. -/
def NewEmailState : EmailState := ⟨[]⟩

/-- Lookup of a mailbox key in the association list backing the Go map. -/
def lookupUIDs : List (String × List Nat) → String → Option (List Nat)
  | [], _ => none
  | (k, v) :: rest, mb => if k = mb then some v else lookupUIDs rest mb

/-- Update of a mailbox key in the association list backing the Go map. -/
def setUIDs : List (String × List Nat) → String → List Nat → List (String × List Nat)
  | [], mb, v => [(mb, v)]
  | (k, w) :: rest, mb, v =>
      if k = mb then (mb, v) :: rest else (k, w) :: setUIDs rest mb v

/-- GetLastUIDs returns the last seen UIDs for a mailbox (empty list when
the mailbox has no entry, as in the Go source). -/
def EmailState.GetLastUIDs (s : EmailState) (mb : String) : List Nat :=
  (lookupUIDs s.lastUIDs mb).getD []

/-- Window trimming step of `AddUID`: Go keeps only the last 100 UIDs
(`s = s[len-100:]` when `len > 100`). -/
def capWindow (l : List Nat) : List Nat :=
  if l.length > 100 then l.drop (l.length - 100) else l

/-- Per-window body of `AddUID`: skip when the UID is already present,
otherwise append and trim to the last 100 entries. -/
def addUIDList (l : List Nat) (uid : Nat) : List Nat :=
  if uid ∈ l then l else capWindow (l ++ [uid])

/-- AddUID adds a UID to the list of last seen UIDs for a mailbox, keeping
only the last 100 (storage `AddUID`). -/
def EmailState.AddUID (s : EmailState) (mb : String) (uid : Nat) : EmailState :=
  ⟨setUIDs s.lastUIDs mb (addUIDList (s.GetLastUIDs mb) uid)⟩

/-- Running-maximum loop of the Go source (`for _, uid := range uids
{ if uid > highest { highest = uid } }` starting from `0`). -/
def goMax (l : List Nat) : Nat :=
  l.foldl (fun h u => if u > h then u else h) 0

/-- GetHighestUID returns the highest UID recorded for a mailbox (0 when
the window is empty). -/
def EmailState.GetHighestUID (s : EmailState) (mb : String) : Nat :=
  goMax (s.GetLastUIDs mb)

/-- Mailbox constant of `imap.go`. -/
def mailboxName : String := "INBOX"

/-- ImapChecker state: the persisted-window object plus the in-memory
`notifiedUIDs` set (a Go `map[uint32]bool` modelled as a membership list). -/
structure ImapChecker where
  emailState : EmailState
  notifiedUIDs : List Nat
deriving DecidableEq

/-- Set-insertion into the `notifiedUIDs` membership list
(`ic.notifiedUIDs[uid] = true`). -/
def markNotified (l : List Nat) (uid : Nat) : List Nat :=
  if uid ∈ l then l else l ++ [uid]

/-- NewImapChecker loads the persisted state and seeds `notifiedUIDs` from
the stored window of the mailbox. -/
def NewImapChecker (disk : EmailState) : ImapChecker :=
  ⟨disk, disk.GetLastUIDs mailboxName⟩

/-- Suffix of length `n` of a list: the messages returned by fetching the
sequence-number range `[messages-n+1 .. messages]`. -/
def lastN (n : Nat) (l : List α) : List α :=
  l.drop (l.length - n)

/-- Insertion step of the date-descending sort (`sort.Slice` with
`Less a b = a.Date.After(b.Date)`; deterministic stand-in that agrees with
the Go sort whenever dates are distinct). -/
def insertDesc (m : Message) : List Message → List Message
  | [] => [m]
  | x :: xs => if x.date ≤ m.date then m :: x :: xs else x :: insertDesc m xs

/-- Date-descending sort used for the baseline and for notification order. -/
def sortByDateDesc (l : List Message) : List Message :=
  l.foldr insertDesc []

/-- Result of `InitializeEmailTracking`: the updated checker and whether
`saveStateWithLogging` ran. -/
structure InitResult where
  ic : ImapChecker
  saved : Bool
deriving DecidableEq

/-- Baseline insertion of one email: `ic.emailState.AddUID` plus
`ic.notifiedUIDs[uid] = true`. -/
def addBaseline (ic : ImapChecker) (m : Message) : ImapChecker :=
  ⟨ic.emailState.AddUID mailboxName m.uid, markNotified ic.notifiedUIDs m.uid⟩

/-- InitializeEmailTracking: keep an existing non-empty state; on an empty
mailbox persist as-is; otherwise fetch the most recent `min 10 n` messages,
sort them newest-first, insert each into the window and the notified set,
and persist. -/
def InitializeEmailTracking (ic : ImapChecker) (mbox : List Message) : InitResult :=
  if ic.notifiedUIDs ≠ [] then ⟨ic, false⟩
  else if mbox.length = 0 then ⟨ic, true⟩
  else
    let numToFetch := min 10 mbox.length
    let emails := lastN numToFetch mbox
    if emails.length = 0 then ⟨ic, false⟩
    else ⟨(sortByDateDesc emails).foldl addBaseline ic, true⟩

/-- Outcome of an IMAP `Fetch`: the summaries delivered on the message
channel, and the error returned on the `done` channel afterwards. -/
structure FetchOutcome where
  delivered : List Message
  fetchErr : Option String

/-- Fetch with no failure: all requested summaries are delivered. -/
def idealFetch (msgs : List Message) : FetchOutcome := ⟨msgs, none⟩

/-- Result of one `CheckForNewEmails` cycle: the returned subjects, the
sorted new messages (and their UIDs) backing that batch, the mutated
checker, whether the state was persisted, and the returned error. -/
structure CycleResult where
  subjects : List String
  newSorted : List Message
  newUids : List Nat
  ic : ImapChecker
  saved : Bool
  err : Option String
deriving DecidableEq

/-- Per-message body of the fetch loop of `CheckForNewEmails`: skip a UID
already in `notifiedUIDs`, otherwise record the email as new, mark it
notified, add it to the window and raise the state-changed flag. -/
def processStep (acc : List Message × ImapChecker × Bool) (msg : Message) :
    List Message × ImapChecker × Bool :=
  if msg.uid ∈ acc.2.1.notifiedUIDs then acc
  else (acc.1 ++ [msg],
        ⟨acc.2.1.emailState.AddUID mailboxName msg.uid,
         markNotified acc.2.1.notifiedUIDs msg.uid⟩,
        true)

/-- CheckForNewEmails: one poll cycle against the given mailbox, with the
fetch collaborator supplied as a function of the requested candidates. -/
def CheckForNewEmails (ic : ImapChecker) (mbox : List Message)
    (fetch : List Message → FetchOutcome) : CycleResult :=
  if mbox.length = 0 then ⟨[], [], [], ic, false, none⟩
  else
    let highestKnownUID := goMax (ic.emailState.GetLastUIDs mailboxName)
    if highestKnownUID = 0 then
      let r := InitializeEmailTracking ic mbox
      ⟨[], [], [], r.ic, r.saved, none⟩
    else
      let numToCheck := min 30 mbox.length
      let out := fetch (lastN numToCheck mbox)
      let folded := out.delivered.foldl processStep ([], ic, false)
      match out.fetchErr with
      | some e => ⟨[], [], [], folded.2.1, false, some e⟩
      | none =>
        let sorted := sortByDateDesc folded.1
        ⟨sorted.map (·.subject), sorted, sorted.map (·.uid),
         folded.2.1, folded.2.2, none⟩

/-- A running process together with the persisted state file it writes
through `SaveEmailState`. -/
structure World where
  ic : ImapChecker
  disk : EmailState
deriving DecidableEq

/-- Process start: `NewImapChecker` over the state loaded from disk. -/
def startWorld (disk : EmailState) : World := ⟨NewImapChecker disk, disk⟩

/-- One scheduled cycle: run `CheckForNewEmails` with a fault-free fetch
and persist the state when the cycle saved it. -/
def runCycle (w : World) (mbox : List Message) : World × CycleResult :=
  let r := CheckForNewEmails w.ic mbox idealFetch
  (⟨r.ic, if r.saved then r.ic.emailState else w.disk⟩, r)

/-- A sequence of scheduled cycles within one process run. -/
def runCycles : World → List (List Message) → World × List CycleResult
  | w, [] => (w, [])
  | w, mb :: rest =>
    let p := runCycle w mb
    let q := runCycles p.1 rest
    (q.1, p.2 :: q.2)

/-- ResetState: clear the notified set and the state object, then
re-initialize tracking against the current mailbox. -/
def ResetState (mbox : List Message) : ImapChecker :=
  (InitializeEmailTracking ⟨NewEmailState, []⟩ mbox).ic

/-! ### Basic lemmas about the window primitives -/

theorem lookupUIDs_setUIDs (l : List (String × List Nat)) (mb : String) (v : List Nat) :
    lookupUIDs (setUIDs l mb v) mb = some v := by
  induction l with
  | nil => simp [setUIDs, lookupUIDs]
  | cons hd tl ih =>
    by_cases h : hd.1 = mb
    · simp [setUIDs, lookupUIDs, h]
    · simp [setUIDs, lookupUIDs, h, ih]

theorem GetLastUIDs_AddUID (s : EmailState) (mb : String) (u : Nat) :
    (s.AddUID mb u).GetLastUIDs mb = addUIDList (s.GetLastUIDs mb) u := by
  simp [EmailState.AddUID, EmailState.GetLastUIDs, lookupUIDs_setUIDs]

theorem capWindow_eq_lastN (l : List Nat) : capWindow l = lastN 100 l := by
  by_cases h : l.length > 100
  · simp [capWindow, lastN, h]
  · have h0 : l.length - 100 = 0 := by omega
    simp [capWindow, lastN, h, h0]

theorem lastN_length (n : Nat) (l : List α) : (lastN n l).length = min n l.length := by
  simp [lastN]
  omega

theorem lastN_eq_self {n : Nat} {l : List α} (h : l.length ≤ n) : lastN n l = l := by
  have h0 : l.length - n = 0 := by omega
  simp [lastN, h0]

theorem lastN_subset (n : Nat) (l : List α) : lastN n l ⊆ l :=
  (List.drop_subset _ _)

theorem lastN_sublist (n : Nat) (l : List α) : List.Sublist (lastN n l) l :=
  (List.drop_sublist _ _)

theorem lastN_append_of_le {n : Nat} {b : List α} (a : List α) (h : n ≤ b.length) :
    lastN n (a ++ b) = lastN n b := by
  unfold lastN
  have hk : (a ++ b).length - n = a.length + (b.length - n) := by
    simp
    omega
  rw [hk, List.drop_append]

theorem lastN_lastN_append (a b : List α) :
    lastN 100 (lastN 100 a ++ b) = lastN 100 (a ++ b) := by
  by_cases h : a.length ≤ 100
  · rw [lastN_eq_self h]
  · have h1 : 100 ≤ (lastN 100 a ++ b).length := by
      simp [lastN_length]
      omega
    have h2 : a = a.take (a.length - 100) ++ lastN 100 a := by
      simp [lastN]
    calc lastN 100 (lastN 100 a ++ b)
        = lastN 100 (a.take (a.length - 100) ++ (lastN 100 a ++ b)) :=
          (lastN_append_of_le _ h1).symm
      _ = lastN 100 (a ++ b) := by rw [← List.append_assoc, ← h2]

theorem mem_lastN_append_singleton (l : List Nat) (u : Nat) :
    u ∈ lastN 100 (l ++ [u]) := by
  have hk : (l ++ [u]).length - 100 ≤ l.length := by
    rw [List.length_append, List.length_singleton]
    omega
  rw [lastN, List.drop_append_of_le_length hk]
  simp

theorem addUIDList_ne_nil (l : List Nat) (u : Nat) : addUIDList l u ≠ [] := by
  unfold addUIDList
  by_cases h : u ∈ l
  · rw [if_pos h]
    exact List.ne_nil_of_mem h
  · rw [if_neg h, capWindow_eq_lastN]
    exact List.ne_nil_of_mem (mem_lastN_append_singleton l u)

theorem mem_addUIDList_self (l : List Nat) (u : Nat) : u ∈ addUIDList l u := by
  unfold addUIDList
  by_cases h : u ∈ l
  · rw [if_pos h]; exact h
  · rw [if_neg h, capWindow_eq_lastN]
    exact mem_lastN_append_singleton l u

theorem addUIDList_subset (l : List Nat) (u : Nat) :
    ∀ x ∈ addUIDList l u, x ∈ l ∨ x = u := by
  intro x hx
  unfold addUIDList at hx
  by_cases h : u ∈ l
  · rw [if_pos h] at hx
    exact Or.inl hx
  · rw [if_neg h, capWindow_eq_lastN] at hx
    have := lastN_subset 100 (l ++ [u]) hx
    simpa using this

theorem addUIDList_length_le {l : List Nat} (h : l.length ≤ 100) (u : Nat) :
    (addUIDList l u).length ≤ 100 := by
  unfold addUIDList
  by_cases hm : u ∈ l
  · simpa [hm]
  · rw [if_neg hm, capWindow_eq_lastN]
    rw [lastN_length]
    omega

theorem addUIDList_nodup {l : List Nat} (h : l.Nodup) (u : Nat) :
    (addUIDList l u).Nodup := by
  unfold addUIDList
  by_cases hm : u ∈ l
  · simpa [hm]
  · have hnd : (l ++ [u]).Nodup := by
      simp [List.nodup_append, h, hm]
    simpa [hm, capWindow_eq_lastN] using (lastN_sublist 100 (l ++ [u])).nodup hnd

theorem addUIDList_of_not_mem {l : List Nat} {u : Nat} (h : u ∉ l) :
    addUIDList l u = lastN 100 (l ++ [u]) := by
  simp [addUIDList, h, capWindow_eq_lastN]

/-! ### The running-maximum (Cursor) -/

/-- Structural maximum of a UID list; equal to the Go running-max loop. -/
def maxUID : List Nat → Nat
  | [] => 0
  | u :: r => max u (maxUID r)

theorem goMax_aux (l : List Nat) :
    ∀ a : Nat, l.foldl (fun h u => if u > h then u else h) a = max a (maxUID l) := by
  induction l with
  | nil => intro a; simp [maxUID]
  | cons hd tl ih =>
    intro a
    by_cases h : hd > a
    · simp [List.foldl, h, ih, maxUID]
      omega
    · simp [List.foldl, h, ih, maxUID]
      omega

theorem goMax_eq_maxUID (l : List Nat) : goMax l = maxUID l := by
  simp [goMax, goMax_aux]

theorem le_maxUID_of_mem {l : List Nat} {x : Nat} (h : x ∈ l) : x ≤ maxUID l := by
  induction l with
  | nil => cases h
  | cons hd tl ih =>
    rcases List.mem_cons.mp h with h1 | h1
    · simp [maxUID, h1]
    · have := ih h1
      simp [maxUID]
      omega

theorem maxUID_ne_zero {l : List Nat} (hne : l ≠ []) (h0 : ∀ u ∈ l, u ≠ 0) :
    maxUID l ≠ 0 := by
  cases l with
  | nil => exact absurd rfl hne
  | cons hd tl =>
    have h1 : hd ≠ 0 := h0 hd (by simp)
    have h2 : hd ≤ maxUID (hd :: tl) := le_maxUID_of_mem (by simp)
    omega

/-! ### The notified set -/

theorem mem_markNotified (l : List Nat) (u x : Nat) :
    x ∈ markNotified l u ↔ x ∈ l ∨ x = u := by
  unfold markNotified
  by_cases h : u ∈ l
  · simp [h]
    intro hx
    rw [hx]
    exact h
  · simp [h]

theorem markNotified_subset (l : List Nat) (u : Nat) : l ⊆ markNotified l u := by
  intro x hx
  exact (mem_markNotified l u x).mpr (Or.inl hx)

theorem mem_markNotified_self (l : List Nat) (u : Nat) : u ∈ markNotified l u :=
  (mem_markNotified l u u).mpr (Or.inr rfl)

/-! ### The date-descending sort -/

theorem mem_insertDesc (m x : Message) (l : List Message) :
    x ∈ insertDesc m l ↔ x = m ∨ x ∈ l := by
  induction l with
  | nil => simp [insertDesc]
  | cons hd tl ih =>
    by_cases h : hd.date ≤ m.date
    · simp [insertDesc, h]
    · simp [insertDesc, h, ih]
      tauto

theorem mem_sortByDateDesc (x : Message) (l : List Message) :
    x ∈ sortByDateDesc l ↔ x ∈ l := by
  induction l with
  | nil => simp [sortByDateDesc]
  | cons hd tl ih =>
    simp [sortByDateDesc, List.foldr] at ih ⊢
    rw [mem_insertDesc]
    tauto

theorem length_insertDesc (m : Message) (l : List Message) :
    (insertDesc m l).length = l.length + 1 := by
  induction l with
  | nil => simp [insertDesc]
  | cons hd tl ih =>
    by_cases h : hd.date ≤ m.date
    · simp [insertDesc, h]
    · simp [insertDesc, h, ih]

theorem length_sortByDateDesc (l : List Message) :
    (sortByDateDesc l).length = l.length := by
  induction l with
  | nil => simp [sortByDateDesc]
  | cons hd tl ih =>
    simp [sortByDateDesc, List.foldr, length_insertDesc] at ih ⊢
    exact ih

theorem pairwise_insertDesc {m : Message} {l : List Message}
    (h : l.Pairwise (fun a b => b.date ≤ a.date)) :
    (insertDesc m l).Pairwise (fun a b => b.date ≤ a.date) := by
  induction l with
  | nil => simp [insertDesc]
  | cons hd tl ih =>
    rcases List.pairwise_cons.mp h with ⟨hhd, htl⟩
    by_cases hle : hd.date ≤ m.date
    · have heq : insertDesc m (hd :: tl) = m :: hd :: tl := by
        simp [insertDesc, hle]
      rw [heq]
      refine List.pairwise_cons.mpr ⟨?_, h⟩
      intro b hb
      rcases List.mem_cons.mp hb with h1 | h1
      · rw [h1]; exact hle
      · exact le_trans (hhd b h1) hle
    · have heq : insertDesc m (hd :: tl) = hd :: insertDesc m tl := by
        simp [insertDesc, hle]
      rw [heq]
      refine List.pairwise_cons.mpr ⟨?_, ih htl⟩
      intro b hb
      rcases (mem_insertDesc m b tl).mp hb with h1 | h1
      · rw [h1]; omega
      · exact hhd b h1

theorem sortByDateDesc_sorted (l : List Message) :
    (sortByDateDesc l).Pairwise (fun a b => b.date ≤ a.date) := by
  induction l with
  | nil => simp [sortByDateDesc]
  | cons hd tl ih =>
    simp [sortByDateDesc, List.foldr] at ih ⊢
    exact pairwise_insertDesc ih

/-! ### The persisted window of the mailbox under check -/

/-- Persisted window of the checker for the fixed mailbox. -/
def windowOf (ic : ImapChecker) : List Nat :=
  ic.emailState.GetLastUIDs mailboxName

theorem windowOf_addBaseline (ic : ImapChecker) (m : Message) :
    windowOf (addBaseline ic m) = addUIDList (windowOf ic) m.uid := by
  simp [windowOf, addBaseline, GetLastUIDs_AddUID]

theorem notified_addBaseline (ic : ImapChecker) (m : Message) :
    (addBaseline ic m).notifiedUIDs = markNotified ic.notifiedUIDs m.uid := rfl

/-! ### Lemmas about the fetch-processing loop of CheckForNewEmails -/

theorem processFold_notified_mono (msgs : List Message) :
    ∀ (news : List Message) (ic : ImapChecker) (flag : Bool) (u : Nat),
      u ∈ ic.notifiedUIDs →
      u ∈ (msgs.foldl processStep (news, ic, flag)).2.1.notifiedUIDs := by
  induction msgs with
  | nil => intro news ic flag u hu; simpa using hu
  | cons m rest ih =>
    intro news ic flag u hu
    rw [List.foldl_cons]
    by_cases h : m.uid ∈ ic.notifiedUIDs
    · rw [show processStep (news, ic, flag) m = (news, ic, flag) by
        simp [processStep, h]]
      exact ih news ic flag u hu
    · rw [show processStep (news, ic, flag) m =
          (news ++ [m],
           ⟨ic.emailState.AddUID mailboxName m.uid, markNotified ic.notifiedUIDs m.uid⟩,
           true) by simp [processStep, h]]
      exact ih _ _ _ u (markNotified_subset _ _ hu)

theorem processFold_all_notified (msgs : List Message) :
    ∀ (news : List Message) (ic : ImapChecker) (flag : Bool),
      ∀ m ∈ msgs, m.uid ∈ (msgs.foldl processStep (news, ic, flag)).2.1.notifiedUIDs := by
  induction msgs with
  | nil => intro _ _ _ m hm; cases hm
  | cons hd rest ih =>
    intro news ic flag m hm
    rw [List.foldl_cons]
    rcases List.mem_cons.mp hm with h1 | h1
    · subst h1
      by_cases h : m.uid ∈ ic.notifiedUIDs
      · rw [show processStep (news, ic, flag) m = (news, ic, flag) by
          simp [processStep, h]]
        exact processFold_notified_mono rest news ic flag m.uid h
      · rw [show processStep (news, ic, flag) m =
            (news ++ [m],
             ⟨ic.emailState.AddUID mailboxName m.uid, markNotified ic.notifiedUIDs m.uid⟩,
             true) by simp [processStep, h]]
        exact processFold_notified_mono rest _ _ _ m.uid (mem_markNotified_self _ _)
    · by_cases h : hd.uid ∈ ic.notifiedUIDs
      · rw [show processStep (news, ic, flag) hd = (news, ic, flag) by
          simp [processStep, h]]
        exact ih news ic flag m h1
      · rw [show processStep (news, ic, flag) hd =
            (news ++ [hd],
             ⟨ic.emailState.AddUID mailboxName hd.uid, markNotified ic.notifiedUIDs hd.uid⟩,
             true) by simp [processStep, h]]
        exact ih _ _ _ m h1

theorem processFold_news_iff (msgs : List Message) :
    ∀ (news : List Message) (ic : ImapChecker) (flag : Bool) (u : Nat),
      u ∈ (msgs.foldl processStep (news, ic, flag)).1.map (·.uid) ↔
        u ∈ news.map (·.uid) ∨
          (u ∈ msgs.map (·.uid) ∧ u ∉ ic.notifiedUIDs) := by
  induction msgs with
  | nil => intro news ic flag u; simp
  | cons m rest ih =>
    intro news ic flag u
    rw [List.foldl_cons]
    by_cases h : m.uid ∈ ic.notifiedUIDs
    · rw [show processStep (news, ic, flag) m = (news, ic, flag) by
        simp [processStep, h]]
      rw [ih]
      simp only [List.map_cons, List.mem_cons]
      constructor
      · rintro (h1 | ⟨h1, h2⟩)
        · exact Or.inl h1
        · exact Or.inr ⟨Or.inr h1, h2⟩
      · rintro (h1 | ⟨h1 | h1, h2⟩)
        · exact Or.inl h1
        · exact absurd (h1 ▸ h) h2
        · exact Or.inr ⟨h1, h2⟩
    · rw [show processStep (news, ic, flag) m =
          (news ++ [m],
           ⟨ic.emailState.AddUID mailboxName m.uid, markNotified ic.notifiedUIDs m.uid⟩,
           true) by simp [processStep, h]]
      rw [ih]
      simp only [List.map_append, List.map_cons, List.map_nil, List.mem_append,
        List.mem_cons, List.not_mem_nil, or_false, mem_markNotified]
      constructor
      · rintro ((h1 | h1) | ⟨h1, h2⟩)
        · exact Or.inl h1
        · exact Or.inr ⟨Or.inl h1, h1 ▸ h⟩
        · exact Or.inr ⟨Or.inr h1, fun hc => h2 (Or.inl hc)⟩
      · rintro (h1 | ⟨h1 | h1, h2⟩)
        · exact Or.inl (Or.inl h1)
        · exact Or.inl (Or.inr h1)
        · by_cases hum : u = m.uid
          · exact Or.inl (Or.inr hum)
          · exact Or.inr ⟨h1, fun hc => hc.elim h2 hum⟩

theorem processFold_id_of_all_notified (msgs : List Message) :
    ∀ (news : List Message) (ic : ImapChecker) (flag : Bool),
      (∀ m ∈ msgs, m.uid ∈ ic.notifiedUIDs) →
      msgs.foldl processStep (news, ic, flag) = (news, ic, flag) := by
  induction msgs with
  | nil => intro news ic flag _; rfl
  | cons m rest ih =>
    intro news ic flag hall
    rw [List.foldl_cons]
    rw [show processStep (news, ic, flag) m = (news, ic, flag) by
      simp [processStep, hall m (by simp)]]
    exact ih news ic flag (fun x hx => hall x (List.mem_cons_of_mem m hx))

theorem processFold_flag_sticky (msgs : List Message) :
    ∀ (news : List Message) (ic : ImapChecker),
      (msgs.foldl processStep (news, ic, true)).2.2 = true := by
  induction msgs with
  | nil => intro _ _; rfl
  | cons m rest ih =>
    intro news ic
    rw [List.foldl_cons]
    by_cases h : m.uid ∈ ic.notifiedUIDs
    · rw [show processStep (news, ic, true) m = (news, ic, true) by
        simp [processStep, h]]
      exact ih news ic
    · rw [show processStep (news, ic, true) m =
          (news ++ [m],
           ⟨ic.emailState.AddUID mailboxName m.uid, markNotified ic.notifiedUIDs m.uid⟩,
           true) by simp [processStep, h]]
      exact ih _ _

theorem processFold_of_flag_false (msgs : List Message) :
    ∀ (news : List Message) (ic : ImapChecker),
      (msgs.foldl processStep (news, ic, false)).2.2 = false →
      msgs.foldl processStep (news, ic, false) = (news, ic, false) := by
  induction msgs with
  | nil => intro _ _ _; rfl
  | cons m rest ih =>
    intro news ic hflag
    rw [List.foldl_cons] at hflag ⊢
    by_cases h : m.uid ∈ ic.notifiedUIDs
    · rw [show processStep (news, ic, false) m = (news, ic, false) by
        simp [processStep, h]] at hflag ⊢
      exact ih news ic hflag
    · rw [show processStep (news, ic, false) m =
          (news ++ [m],
           ⟨ic.emailState.AddUID mailboxName m.uid, markNotified ic.notifiedUIDs m.uid⟩,
           true) by simp [processStep, h]] at hflag
      rw [processFold_flag_sticky rest _ _] at hflag
      cases hflag

theorem processFold_news_prefix (msgs : List Message) :
    ∀ (news : List Message) (ic : ImapChecker) (flag : Bool),
      ∃ Δ, (msgs.foldl processStep (news, ic, flag)).1 = news ++ Δ := by
  induction msgs with
  | nil => intro news _ _; exact ⟨[], by simp⟩
  | cons m rest ih =>
    intro news ic flag
    rw [List.foldl_cons]
    by_cases h : m.uid ∈ ic.notifiedUIDs
    · rw [show processStep (news, ic, flag) m = (news, ic, flag) by
        simp [processStep, h]]
      exact ih news ic flag
    · rw [show processStep (news, ic, flag) m =
          (news ++ [m],
           ⟨ic.emailState.AddUID mailboxName m.uid, markNotified ic.notifiedUIDs m.uid⟩,
           true) by simp [processStep, h]]
      rcases ih (news ++ [m]) _ true with ⟨Δ, hΔ⟩
      exact ⟨m :: Δ, by rw [hΔ]; simp⟩

theorem processFold_changed_news (msgs : List Message) :
    ∀ (news : List Message) (ic : ImapChecker),
      (msgs.foldl processStep (news, ic, false)).2.2 = true →
      (msgs.foldl processStep (news, ic, false)).1 ≠ news := by
  induction msgs with
  | nil => intro news ic hflag; cases hflag
  | cons m rest ih =>
    intro news ic hflag
    rw [List.foldl_cons] at hflag ⊢
    by_cases h : m.uid ∈ ic.notifiedUIDs
    · rw [show processStep (news, ic, false) m = (news, ic, false) by
        simp [processStep, h]] at hflag ⊢
      exact ih news ic hflag
    · rw [show processStep (news, ic, false) m =
          (news ++ [m],
           ⟨ic.emailState.AddUID mailboxName m.uid, markNotified ic.notifiedUIDs m.uid⟩,
           true) by simp [processStep, h]]
      rcases processFold_news_prefix rest (news ++ [m]) _ true with ⟨Δ, hΔ⟩
      rw [hΔ]
      intro hc
      have hlen : news.length + (1 + Δ.length) = news.length := by
        have h2 := congrArg List.length hc
        simp [Nat.add_assoc] at h2
      omega

theorem exists_mem_lastN_append {us : List Nat} (w : List Nat) (h : us ≠ []) :
    ∃ u, u ∈ us ∧ u ∈ lastN 100 (w ++ us) := by
  rcases List.eq_nil_or_concat us with h1 | ⟨L, b, h1⟩
  · exact absurd h1 h
  · subst h1
    refine ⟨b, by simp, ?_⟩
    have : w ++ (L ++ [b]) = (w ++ L) ++ [b] := by simp
    rw [List.concat_eq_append, this]
    exact mem_lastN_append_singleton (w ++ L) b

theorem processFold_window (msgs : List Message) :
    ∀ (news : List Message) (ic : ImapChecker) (flag : Bool),
      (∀ x ∈ windowOf ic, x ∈ ic.notifiedUIDs) →
      (windowOf ic).length ≤ 100 →
      windowOf (msgs.foldl processStep (news, ic, flag)).2.1 =
          lastN 100 (windowOf ic ++
            ((msgs.foldl processStep (news, ic, flag)).1.drop news.length).map (·.uid))
        ∧ (∀ x ∈ windowOf (msgs.foldl processStep (news, ic, flag)).2.1,
            x ∈ (msgs.foldl processStep (news, ic, flag)).2.1.notifiedUIDs)
        ∧ (windowOf (msgs.foldl processStep (news, ic, flag)).2.1).length ≤ 100 := by
  induction msgs with
  | nil =>
    intro news ic flag hsub hcap
    refine ⟨?_, hsub, hcap⟩
    simp [lastN_eq_self hcap]
  | cons m rest ih =>
    intro news ic flag hsub hcap
    rw [List.foldl_cons]
    by_cases h : m.uid ∈ ic.notifiedUIDs
    · rw [show processStep (news, ic, flag) m = (news, ic, flag) by
        simp [processStep, h]]
      exact ih news ic flag hsub hcap
    · rw [show processStep (news, ic, flag) m =
          (news ++ [m],
           ⟨ic.emailState.AddUID mailboxName m.uid, markNotified ic.notifiedUIDs m.uid⟩,
           true) by simp [processStep, h]]
      set ic2 : ImapChecker :=
        ⟨ic.emailState.AddUID mailboxName m.uid, markNotified ic.notifiedUIDs m.uid⟩ with hic2
      have hmw : m.uid ∉ windowOf ic := fun hc => h (hsub _ hc)
      have hw2 : windowOf ic2 = lastN 100 (windowOf ic ++ [m.uid]) := by
        rw [hic2]
        show (ic.emailState.AddUID mailboxName m.uid).GetLastUIDs mailboxName =
          lastN 100 (windowOf ic ++ [m.uid])
        rw [GetLastUIDs_AddUID]
        exact addUIDList_of_not_mem hmw
      have hsub2 : ∀ x ∈ windowOf ic2, x ∈ ic2.notifiedUIDs := by
        intro x hx
        have hx2 : x ∈ windowOf ic ++ [m.uid] := lastN_subset _ _ (hw2 ▸ hx)
        rcases List.mem_append.mp hx2 with h1 | h1
        · exact markNotified_subset _ _ (hsub x h1)
        · rw [List.mem_singleton] at h1
          rw [h1]
          exact mem_markNotified_self _ _
      have hcap2 : (windowOf ic2).length ≤ 100 := by
        rw [hw2, lastN_length]
        omega
      rcases ih (news ++ [m]) ic2 true hsub2 hcap2 with ⟨h1, h2, h3⟩
      refine ⟨?_, h2, h3⟩
      rcases processFold_news_prefix rest (news ++ [m]) ic2 true with ⟨Δ, hΔ⟩
      rw [hΔ] at h1 ⊢
      have hdrop1 : ((news ++ [m]) ++ Δ).drop (news ++ [m]).length = Δ := by
        simp
      have hdrop0 : ((news ++ [m]) ++ Δ).drop news.length = m :: Δ := by
        rw [List.append_assoc, List.drop_left]
        rfl
      rw [hdrop1] at h1
      rw [hdrop0, h1, hw2]
      rw [lastN_lastN_append]
      simp

/-! ### Baseline fold lemmas -/

theorem baselineFold_notified_mono (msgs : List Message) :
    ∀ (ic : ImapChecker) (u : Nat), u ∈ ic.notifiedUIDs →
      u ∈ (msgs.foldl addBaseline ic).notifiedUIDs := by
  induction msgs with
  | nil => intro ic u hu; exact hu
  | cons m rest ih =>
    intro ic u hu
    rw [List.foldl_cons]
    exact ih _ u (markNotified_subset _ _ hu)

theorem baselineFold_window_sub (msgs : List Message) :
    ∀ ic : ImapChecker,
      (∀ x ∈ windowOf ic, x ∈ ic.notifiedUIDs) →
      ∀ x ∈ windowOf (msgs.foldl addBaseline ic),
        x ∈ (msgs.foldl addBaseline ic).notifiedUIDs := by
  induction msgs with
  | nil => intro ic hsub; exact hsub
  | cons m rest ih =>
    intro ic hsub
    rw [List.foldl_cons]
    apply ih
    intro x hx
    rw [windowOf_addBaseline] at hx
    rcases addUIDList_subset _ _ x hx with h1 | h1
    · exact markNotified_subset _ _ (hsub x h1)
    · rw [h1]
      exact mem_markNotified_self _ _

theorem baselineFold_window_ne_nil (msgs : List Message) :
    ∀ ic : ImapChecker, msgs ≠ [] → windowOf (msgs.foldl addBaseline ic) ≠ [] := by
  induction msgs with
  | nil => intro ic h; exact absurd rfl h
  | cons m rest ih =>
    intro ic _
    rw [List.foldl_cons]
    by_cases h : rest = []
    · subst h
      simp only [List.foldl_nil]
      rw [windowOf_addBaseline]
      exact addUIDList_ne_nil _ _
    · exact ih _ h

theorem baselineFold_window_cap (msgs : List Message) :
    ∀ ic : ImapChecker, (windowOf ic).length ≤ 100 →
      (windowOf (msgs.foldl addBaseline ic)).length ≤ 100 := by
  induction msgs with
  | nil => intro ic h; exact h
  | cons m rest ih =>
    intro ic hcap
    rw [List.foldl_cons]
    apply ih
    rw [windowOf_addBaseline]
    exact addUIDList_length_le hcap _

theorem baselineFold_window_mem_nonzero (msgs : List Message) :
    ∀ ic : ImapChecker,
      (∀ x ∈ windowOf ic, x ≠ 0) → (∀ m ∈ msgs, m.uid ≠ 0) →
      ∀ x ∈ windowOf (msgs.foldl addBaseline ic), x ≠ 0 := by
  induction msgs with
  | nil => intro ic h _; exact h
  | cons m rest ih =>
    intro ic hw hm
    rw [List.foldl_cons]
    apply ih
    · intro x hx
      rw [windowOf_addBaseline] at hx
      rcases addUIDList_subset _ _ x hx with h1 | h1
      · exact hw x h1
      · rw [h1]
        exact hm m (by simp)
    · intro x hx
      exact hm x (List.mem_cons_of_mem _ hx)

/-! ### Branch equations for InitializeEmailTracking and CheckForNewEmails -/

theorem Init_eq_existing {ic : ImapChecker} (mbox : List Message)
    (h : ic.notifiedUIDs ≠ []) :
    InitializeEmailTracking ic mbox = ⟨ic, false⟩ := by
  simp [InitializeEmailTracking, h]

theorem Init_eq_emptyMbox {ic : ImapChecker} {mbox : List Message}
    (h : ic.notifiedUIDs = []) (h0 : mbox.length = 0) :
    InitializeEmailTracking ic mbox = ⟨ic, true⟩ := by
  simp [InitializeEmailTracking, h, h0]

theorem Init_eq_baseline {ic : ImapChecker} {mbox : List Message}
    (h : ic.notifiedUIDs = []) (h0 : mbox.length ≠ 0) :
    InitializeEmailTracking ic mbox =
      ⟨(sortByDateDesc (lastN (min 10 mbox.length) mbox)).foldl addBaseline ic, true⟩ := by
  have hlen : (lastN (min 10 mbox.length) mbox).length ≠ 0 := by
    rw [lastN_length]
    omega
  simp [InitializeEmailTracking, h, h0, hlen]

theorem Check_eq_empty {ic : ImapChecker} {mbox : List Message}
    (f : List Message → FetchOutcome) (h : mbox.length = 0) :
    CheckForNewEmails ic mbox f = ⟨[], [], [], ic, false, none⟩ := by
  simp [CheckForNewEmails, h]

theorem Check_eq_baseline {ic : ImapChecker} {mbox : List Message}
    (f : List Message → FetchOutcome) (h0 : mbox.length ≠ 0)
    (hH : goMax (ic.emailState.GetLastUIDs mailboxName) = 0) :
    CheckForNewEmails ic mbox f =
      ⟨[], [], [], (InitializeEmailTracking ic mbox).ic,
        (InitializeEmailTracking ic mbox).saved, none⟩ := by
  simp [CheckForNewEmails, h0, hH]

theorem Check_eq_error {ic : ImapChecker} {mbox : List Message}
    {f : List Message → FetchOutcome} {e : String}
    (h0 : mbox.length ≠ 0)
    (hH : goMax (ic.emailState.GetLastUIDs mailboxName) ≠ 0)
    (hfe : (f (lastN (min 30 mbox.length) mbox)).fetchErr = some e) :
    CheckForNewEmails ic mbox f =
      ⟨[], [], [],
        ((f (lastN (min 30 mbox.length) mbox)).delivered.foldl
          processStep ([], ic, false)).2.1,
        false, some e⟩ := by
  simp [CheckForNewEmails, h0, hH, hfe]

theorem Check_eq_success {ic : ImapChecker} {mbox : List Message}
    {f : List Message → FetchOutcome}
    (h0 : mbox.length ≠ 0)
    (hH : goMax (ic.emailState.GetLastUIDs mailboxName) ≠ 0)
    (hfe : (f (lastN (min 30 mbox.length) mbox)).fetchErr = none) :
    CheckForNewEmails ic mbox f =
      (let folded := (f (lastN (min 30 mbox.length) mbox)).delivered.foldl
          processStep ([], ic, false)
       ⟨(sortByDateDesc folded.1).map (·.subject), sortByDateDesc folded.1,
        (sortByDateDesc folded.1).map (·.uid), folded.2.1, folded.2.2, none⟩) := by
  simp [CheckForNewEmails, h0, hH, hfe]

/-! ### Cycle-level lemmas -/

theorem mem_map_uid_sortByDateDesc (u : Nat) (l : List Message) :
    u ∈ (sortByDateDesc l).map (·.uid) ↔ u ∈ l.map (·.uid) := by
  simp only [List.mem_map, mem_sortByDateDesc]

theorem Init_notified_mono (ic : ImapChecker) (mbox : List Message) :
    ∀ u ∈ ic.notifiedUIDs, u ∈ (InitializeEmailTracking ic mbox).ic.notifiedUIDs := by
  intro u hu
  by_cases h : ic.notifiedUIDs ≠ []
  · rw [Init_eq_existing mbox h]
    exact hu
  · push_neg at h
    by_cases h0 : mbox.length = 0
    · rw [Init_eq_emptyMbox h h0]
      exact hu
    · rw [Init_eq_baseline h h0]
      exact baselineFold_notified_mono _ _ u hu

theorem Check_notified_mono (ic : ImapChecker) (mbox : List Message)
    (f : List Message → FetchOutcome) :
    ∀ u ∈ ic.notifiedUIDs, u ∈ (CheckForNewEmails ic mbox f).ic.notifiedUIDs := by
  intro u hu
  by_cases h0 : mbox.length = 0
  · rw [Check_eq_empty f h0]
    exact hu
  · by_cases hH : goMax (ic.emailState.GetLastUIDs mailboxName) = 0
    · rw [Check_eq_baseline f h0 hH]
      exact Init_notified_mono ic mbox u hu
    · cases hfe : (f (lastN (min 30 mbox.length) mbox)).fetchErr with
      | some e =>
        rw [Check_eq_error h0 hH hfe]
        exact processFold_notified_mono _ _ _ _ u hu
      | none =>
        rw [Check_eq_success h0 hH hfe]
        exact processFold_notified_mono _ _ _ _ u hu

theorem Check_newUids_fresh (ic : ImapChecker) (mbox : List Message)
    (f : List Message → FetchOutcome) :
    ∀ u ∈ (CheckForNewEmails ic mbox f).newUids, u ∉ ic.notifiedUIDs := by
  intro u hu
  by_cases h0 : mbox.length = 0
  · rw [Check_eq_empty f h0] at hu
    cases hu
  · by_cases hH : goMax (ic.emailState.GetLastUIDs mailboxName) = 0
    · rw [Check_eq_baseline f h0 hH] at hu
      cases hu
    · cases hfe : (f (lastN (min 30 mbox.length) mbox)).fetchErr with
      | some e =>
        rw [Check_eq_error h0 hH hfe] at hu
        cases hu
      | none =>
        rw [Check_eq_success h0 hH hfe] at hu
        have hu2 := (mem_map_uid_sortByDateDesc u _).mp hu
        have := (processFold_news_iff _ [] ic false u).mp hu2
        simpa using this.elim (fun hc => absurd hc (by simp)) And.right

theorem Check_newUids_notified (ic : ImapChecker) (mbox : List Message)
    (f : List Message → FetchOutcome) :
    ∀ u ∈ (CheckForNewEmails ic mbox f).newUids,
      u ∈ (CheckForNewEmails ic mbox f).ic.notifiedUIDs := by
  intro u hu
  by_cases h0 : mbox.length = 0
  · rw [Check_eq_empty f h0] at hu
    cases hu
  · by_cases hH : goMax (ic.emailState.GetLastUIDs mailboxName) = 0
    · rw [Check_eq_baseline f h0 hH] at hu
      cases hu
    · cases hfe : (f (lastN (min 30 mbox.length) mbox)).fetchErr with
      | some e =>
        rw [Check_eq_error h0 hH hfe] at hu
        cases hu
      | none =>
        rw [Check_eq_success h0 hH hfe] at hu ⊢
        have hu2 := (mem_map_uid_sortByDateDesc u _).mp hu
        have hdel := (processFold_news_iff _ [] ic false u).mp hu2
        have hdel2 : u ∈ (f (lastN (min 30 mbox.length) mbox)).delivered.map (·.uid) := by
          rcases hdel with hc | ⟨h1, _⟩
          · simp at hc
          · exact h1
        rcases List.mem_map.mp hdel2 with ⟨m, hm, hmu⟩
        have := processFold_all_notified _ [] ic false m hm
        rw [hmu] at this
        exact this

/-! ### Run-level lemmas -/

theorem runCycles_cons (w : World) (mb : List Message) (rest : List (List Message)) :
    runCycles w (mb :: rest) =
      ((runCycles (runCycle w mb).1 rest).1,
       (runCycle w mb).2 :: (runCycles (runCycle w mb).1 rest).2) := rfl

theorem runCycle_res (w : World) (mb : List Message) :
    (runCycle w mb).2 = CheckForNewEmails w.ic mb idealFetch := rfl

theorem runCycle_world_ic (w : World) (mb : List Message) :
    (runCycle w mb).1.ic = (CheckForNewEmails w.ic mb idealFetch).ic := rfl

theorem runCycles_no_renotify (mbs : List (List Message)) :
    ∀ (w : World) (u : Nat), u ∈ w.ic.notifiedUIDs →
      ∀ r ∈ (runCycles w mbs).2, u ∉ r.newUids := by
  induction mbs with
  | nil => intro w u _ r hr; cases hr
  | cons mb rest ih =>
    intro w u hu r hr
    rw [runCycles_cons] at hr
    rcases List.mem_cons.mp hr with h1 | h1
    · subst h1
      rw [runCycle_res]
      intro hmem
      exact Check_newUids_fresh w.ic mb idealFetch u hmem hu
    · refine ih (runCycle w mb).1 u ?_ r h1
      rw [runCycle_world_ic]
      exact Check_notified_mono w.ic mb idealFetch u hu

theorem runCycles_pairwise_disjoint (mbs : List (List Message)) :
    ∀ w : World,
      ((runCycles w mbs).2).Pairwise (fun r₁ r₂ => ∀ u ∈ r₁.newUids, u ∉ r₂.newUids) := by
  induction mbs with
  | nil => intro w; exact List.Pairwise.nil
  | cons mb rest ih =>
    intro w
    rw [runCycles_cons]
    refine List.pairwise_cons.mpr ⟨?_, ih _⟩
    intro r₂ hr₂ u hu
    have hn : u ∈ (runCycle w mb).1.ic.notifiedUIDs := by
      rw [runCycle_world_ic]
      rw [runCycle_res] at hu
      exact Check_newUids_notified w.ic mb idealFetch u hu
    exact runCycles_no_renotify rest (runCycle w mb).1 u hn r₂ hr₂

/-! ### Claim C1 -/

/-- C1 (amended): within one process run, each identifier is included in at
most one cycle's notification batch (the batches of any run are pairwise
disjoint on UIDs), and on the normal polling path a fetched summary is new
iff its identifier is absent from the in-memory notified set — set
membership, never the numeric cursor, decides novelty.  The claim's
restart clause is refuted separately: after a restart only the last 100
persisted identifiers survive into the notified set, so an evicted
identifier can be re-notified. -/
theorem c1_no_duplicate_notify :
    (∀ (ic : ImapChecker) (mbox : List Message) (f : List Message → FetchOutcome) (u : Nat),
        mbox.length ≠ 0 →
        goMax (ic.emailState.GetLastUIDs mailboxName) ≠ 0 →
        (f (lastN (min 30 mbox.length) mbox)).fetchErr = none →
        (u ∈ (CheckForNewEmails ic mbox f).newUids ↔
          u ∈ (f (lastN (min 30 mbox.length) mbox)).delivered.map (·.uid) ∧
            u ∉ ic.notifiedUIDs))
    ∧ ∀ (w : World) (mbs : List (List Message)),
        ((runCycles w mbs).2).Pairwise
          (fun r₁ r₂ => ∀ u ∈ r₁.newUids, u ∉ r₂.newUids) := by
  constructor
  · intro ic mbox f u h0 hH hfe
    rw [Check_eq_success h0 hH hfe]
    show u ∈ (sortByDateDesc _).map (·.uid) ↔ _
    rw [mem_map_uid_sortByDateDesc, processFold_news_iff]
    simp
  · intro w mbs
    exact runCycles_pairwise_disjoint mbs w

/-- Witness for `c1_no_duplicate_notify`: the novelty rule evaluated on a
concrete initialized state and two-message mailbox. -/
theorem c1_no_duplicate_notify_witness :
    6 ∈ (CheckForNewEmails ⟨⟨[("INBOX", [5])]⟩, [5]⟩
          [⟨5, 0, "a"⟩, ⟨6, 1, "b"⟩] idealFetch).newUids ↔
      6 ∈ ((idealFetch (lastN (min 30 ([⟨5, 0, "a"⟩, ⟨6, 1, "b"⟩] :
              List Message).length) [⟨5, 0, "a"⟩, ⟨6, 1, "b"⟩])).delivered.map (·.uid)) ∧
        6 ∉ ([5] : List Nat) :=
  c1_no_duplicate_notify.1 ⟨⟨[("INBOX", [5])]⟩, [5]⟩
    [⟨5, 0, "a"⟩, ⟨6, 1, "b"⟩] idealFetch 6
    (by decide) (by decide) (by decide)

/-- Mailbox fragment of `n` consecutive messages with UIDs starting at
`lo`; the date equals the UID and the subject is constant. -/
def natMsgs (lo n : Nat) : List Message :=
  (List.range' lo n).map (fun u => ⟨u, u, "s"⟩)

/-- Poll trace refuting the restart clause of C1: a fresh run baselines on
a 1-message mailbox, notifies UID 2, then sees 100 further UIDs (3..102),
evicting UID 2 from the 100-entry persisted window. -/
def c1run1 : World × CycleResult :=
  runCycle (runCycle (runCycle (runCycle (runCycle (runCycle
    (startWorld NewEmailState)
      (natMsgs 1 1)).1
      (natMsgs 1 2)).1
      (natMsgs 1 27)).1
      (natMsgs 1 52)).1
      (natMsgs 1 77)).1
      (natMsgs 1 102)

/-- Second cycle of the trace (the one whose batch first contains UID 2). -/
def c1cycle2 : CycleResult :=
  (runCycle (runCycle (startWorld NewEmailState) (natMsgs 1 1)).1 (natMsgs 1 2)).2

/-- Post-restart cycle of the trace: the process reloads the persisted
window (UIDs 3..102), and the mailbox has shrunk back to UIDs 1 and 2. -/
def c1afterRestart : CycleResult :=
  (runCycle (startWorld c1run1.1.disk) (natMsgs 1 2)).2

set_option maxRecDepth 10000 in
/-- Counterexample to C1 as stated: with a process restart that reloads
persisted state and no identifier-epoch change, UID 2 is included in the
notification batch of cycle 2 of the first run and again in the batch of
the first cycle after the restart — two batches for one identifier. -/
theorem c1_counterexample :
    2 ∈ c1cycle2.newUids ∧ 2 ∈ c1afterRestart.newUids ∧
      c1cycle2.err = none ∧ c1afterRestart.err = none := by
  decide

/-! ### Claim C2 -/

theorem sortByDateDesc_ne_nil {l : List Message} (h : l ≠ []) :
    sortByDateDesc l ≠ [] := by
  intro hc
  have := congrArg List.length hc
  rw [length_sortByDateDesc] at this
  exact h (List.length_eq_zero.mp this)

/-- C2: starting from an empty persisted state, a poll cycle against a
non-empty mailbox returns an empty batch (no UID is notified), no error,
and leaves a non-empty window both in the checker and in the persisted
state file; baseline establishment never notifies. -/
theorem c2_silent_baseline (mbox : List Message) (h : mbox ≠ []) :
    (runCycle (startWorld NewEmailState) mbox).2.subjects = [] ∧
    (runCycle (startWorld NewEmailState) mbox).2.newUids = [] ∧
    (runCycle (startWorld NewEmailState) mbox).2.err = none ∧
    windowOf (runCycle (startWorld NewEmailState) mbox).2.ic ≠ [] ∧
    (runCycle (startWorld NewEmailState) mbox).1.disk.GetLastUIDs mailboxName ≠ [] := by
  have h0 : mbox.length ≠ 0 := fun hc => h (List.length_eq_zero.mp hc)
  have hH : goMax ((startWorld NewEmailState).ic.emailState.GetLastUIDs mailboxName) = 0 :=
    rfl
  have hni : (startWorld NewEmailState).ic.notifiedUIDs = [] := rfl
  have hinit := Init_eq_baseline hni h0
  have hck := Check_eq_baseline idealFetch h0 hH
  rw [hinit] at hck
  have hsne : sortByDateDesc (lastN (min 10 mbox.length) mbox) ≠ [] := by
    apply sortByDateDesc_ne_nil
    intro hc
    have h2 : (lastN (min 10 mbox.length) mbox).length = 0 := by rw [hc]; rfl
    rw [lastN_length] at h2
    omega
  have hwne : windowOf ((sortByDateDesc (lastN (min 10 mbox.length) mbox)).foldl
      addBaseline (startWorld NewEmailState).ic) ≠ [] :=
    baselineFold_window_ne_nil _ _ hsne
  refine ⟨?_, ?_, ?_, ?_, ?_⟩
  · show (CheckForNewEmails (startWorld NewEmailState).ic mbox idealFetch).subjects = []
    rw [hck]
  · show (CheckForNewEmails (startWorld NewEmailState).ic mbox idealFetch).newUids = []
    rw [hck]
  · show (CheckForNewEmails (startWorld NewEmailState).ic mbox idealFetch).err = none
    rw [hck]
  · show windowOf (CheckForNewEmails (startWorld NewEmailState).ic mbox idealFetch).ic ≠ []
    rw [hck]
    exact hwne
  · show (if (CheckForNewEmails (startWorld NewEmailState).ic mbox idealFetch).saved
        then (CheckForNewEmails (startWorld NewEmailState).ic mbox
          idealFetch).ic.emailState
        else (startWorld NewEmailState).disk).GetLastUIDs mailboxName ≠ []
    rw [hck]
    exact hwne

/-- Witness for `c2_silent_baseline` at a one-message mailbox. -/
theorem c2_silent_baseline_witness :
    (runCycle (startWorld NewEmailState) [⟨7, 3, "hello"⟩]).2.subjects = [] ∧
    (runCycle (startWorld NewEmailState) [⟨7, 3, "hello"⟩]).2.newUids = [] ∧
    (runCycle (startWorld NewEmailState) [⟨7, 3, "hello"⟩]).2.err = none ∧
    windowOf (runCycle (startWorld NewEmailState) [⟨7, 3, "hello"⟩]).2.ic ≠ [] ∧
    (runCycle (startWorld NewEmailState)
      [⟨7, 3, "hello"⟩]).1.disk.GetLastUIDs mailboxName ≠ [] :=
  c2_silent_baseline [⟨7, 3, "hello"⟩] (by decide)

/-! ### Claim C3 -/

theorem freshFold_addUIDList (us : List Nat) :
    ∀ w : List Nat, w.length ≤ 100 → us.Nodup → (∀ u ∈ us, u ∉ w) →
      us.foldl addUIDList w = lastN 100 (w ++ us) := by
  induction us with
  | nil => intro w hcap _ _; simp [lastN_eq_self hcap]
  | cons u rest ih =>
    intro w hcap hnd hfresh
    rw [List.foldl_cons, addUIDList_of_not_mem (hfresh u (by simp))]
    have hcap2 : (lastN 100 (w ++ [u])).length ≤ 100 := by
      rw [lastN_length]
      omega
    have hnd2 := (List.nodup_cons.mp hnd).2
    have hfresh2 : ∀ v ∈ rest, v ∉ lastN 100 (w ++ [u]) := by
      intro v hv hc
      have hc2 : v ∈ w ++ [u] := lastN_subset _ _ hc
      rcases List.mem_append.mp hc2 with h1 | h1
      · exact hfresh v (List.mem_cons_of_mem _ hv) h1
      · rw [List.mem_singleton] at h1
        subst h1
        exact (List.nodup_cons.mp hnd).1 hv
    rw [ih _ hcap2 hnd2 hfresh2, lastN_lastN_append]
    congr 1
    simp

/-- Repeated `AddUID` insertion, one identifier at a time, as the claims
describe the mutation sequence. -/
def foldAddUIDs (s : EmailState) (mb : String) (us : List Nat) : EmailState :=
  us.foldl (fun t u => t.AddUID mb u) s

theorem GetLastUIDs_foldAddUIDs (us : List Nat) :
    ∀ (s : EmailState) (mb : String),
      (foldAddUIDs s mb us).GetLastUIDs mb =
        us.foldl addUIDList (s.GetLastUIDs mb) := by
  induction us with
  | nil => intro s mb; rfl
  | cons u rest ih =>
    intro s mb
    show (foldAddUIDs (s.AddUID mb u) mb rest).GetLastUIDs mb = _
    rw [ih, List.foldl_cons, GetLastUIDs_AddUID]

/-- C3: the per-mailbox window never holds duplicates and never exceeds
100 entries (both invariants are preserved by every `AddUID`), and
inserting 105 distinct fresh identifiers one at a time into any window
satisfying the invariants leaves exactly 100 entries — the suffix of the
insertion-order sequence — with the 5 earliest-inserted entries (and any
pre-existing ones, all older still) evicted. -/
theorem c3_window_cap :
    (∀ (s : EmailState) (mb : String) (u : Nat),
        (s.GetLastUIDs mb).Nodup → ((s.AddUID mb u).GetLastUIDs mb).Nodup)
    ∧ (∀ (s : EmailState) (mb : String) (u : Nat),
        (s.GetLastUIDs mb).length ≤ 100 →
        ((s.AddUID mb u).GetLastUIDs mb).length ≤ 100)
    ∧ ∀ (s : EmailState) (mb : String) (us : List Nat),
        (s.GetLastUIDs mb).Nodup → (s.GetLastUIDs mb).length ≤ 100 →
        us.Nodup → us.length = 105 → (∀ u ∈ us, u ∉ s.GetLastUIDs mb) →
        ((foldAddUIDs s mb us).GetLastUIDs mb).length = 100 ∧
        (foldAddUIDs s mb us).GetLastUIDs mb =
          (s.GetLastUIDs mb ++ us).drop ((s.GetLastUIDs mb).length + 5) ∧
        ((foldAddUIDs s mb us).GetLastUIDs mb).Nodup ∧
        ∀ x ∈ (s.GetLastUIDs mb ++ us).take 5,
          x ∉ (foldAddUIDs s mb us).GetLastUIDs mb := by
  refine ⟨?_, ?_, ?_⟩
  · intro s mb u hnd
    rw [GetLastUIDs_AddUID]
    exact addUIDList_nodup hnd u
  · intro s mb u hcap
    rw [GetLastUIDs_AddUID]
    exact addUIDList_length_le hcap u
  · intro s mb us hnd hcap hund hulen hfresh
    have hfold : (foldAddUIDs s mb us).GetLastUIDs mb =
        lastN 100 (s.GetLastUIDs mb ++ us) := by
      rw [GetLastUIDs_foldAddUIDs]
      exact freshFold_addUIDList us _ hcap hund hfresh
    set w := s.GetLastUIDs mb with hw
    have hlen : (w ++ us).length = w.length + 105 := by
      rw [List.length_append, hulen]
    have hdrop : lastN 100 (w ++ us) = (w ++ us).drop (w.length + 5) := by
      rw [lastN, hlen]
      have h55 : w.length + 105 - 100 = w.length + 5 := by omega
      rw [h55]
    have hndall : (w ++ us).Nodup := by
      rw [List.nodup_append]
      exact ⟨hnd, hund, fun a ha hb => hfresh a hb ha⟩
    refine ⟨?_, ?_, ?_, ?_⟩
    · rw [hfold, lastN_length, hlen]
      omega
    · rw [hfold, hdrop]
    · rw [hfold]
      exact (lastN_sublist _ _).nodup hndall
    · intro x hx
      rw [hfold, hdrop]
      have hsplit : w ++ us =
          (w ++ us).take (w.length + 5) ++ (w ++ us).drop (w.length + 5) :=
        (List.take_append_drop _ _).symm
      have hdisj := (List.nodup_append.mp (hsplit ▸ hndall)).2.2
      have hx2 : x ∈ (w ++ us).take (w.length + 5) := by
        have h5 : ((w ++ us).take (w.length + 5)).take 5 = (w ++ us).take 5 := by
          rw [List.take_take]
          congr 1
          omega
        exact List.take_subset 5 _ (h5 ▸ hx)
      exact fun hc => hdisj hx2 hc

/-- Witness for `c3_window_cap`: 105 fresh identifiers inserted into the
empty window leave exactly the last 100 of them. -/
theorem c3_window_cap_witness :
    ((foldAddUIDs NewEmailState "INBOX" (List.range 105)).GetLastUIDs "INBOX").length = 100 ∧
    (foldAddUIDs NewEmailState "INBOX" (List.range 105)).GetLastUIDs "INBOX" =
      (NewEmailState.GetLastUIDs "INBOX" ++ List.range 105).drop
        ((NewEmailState.GetLastUIDs "INBOX").length + 5) ∧
    ((foldAddUIDs NewEmailState "INBOX" (List.range 105)).GetLastUIDs "INBOX").Nodup ∧
    ∀ x ∈ (NewEmailState.GetLastUIDs "INBOX" ++ List.range 105).take 5,
      x ∉ (foldAddUIDs NewEmailState "INBOX" (List.range 105)).GetLastUIDs "INBOX" :=
  c3_window_cap.2.2 NewEmailState "INBOX" (List.range 105)
    (by decide) (by decide) (by decide) (by decide) (by decide)

/-! ### Claim C5 -/

theorem maxUID_eq_zero_or_mem (l : List Nat) : maxUID l = 0 ∨ maxUID l ∈ l := by
  induction l with
  | nil => exact Or.inl rfl
  | cons hd tl ih =>
    by_cases h : hd ≤ maxUID tl
    · rcases ih with h1 | h1
      · rcases Nat.eq_zero_or_pos hd with h2 | h2
        · left
          simp [maxUID, h1, h2]
        · right
          have : maxUID (hd :: tl) = hd := by
            simp [maxUID]
            omega
          simp [this]
      · right
        have : maxUID (hd :: tl) = maxUID tl := by
          simp [maxUID]
          omega
        rw [this]
        exact List.mem_cons_of_mem _ h1
    · right
      have : maxUID (hd :: tl) = hd := by
        simp [maxUID]
        omega
      simp [this]

theorem maxUID_le_of_subset {l t : List Nat} (h : ∀ x ∈ l, x ∈ t) :
    maxUID l ≤ maxUID t := by
  rcases maxUID_eq_zero_or_mem l with h1 | h1
  · omega
  · exact le_maxUID_of_mem (h _ h1)

/-- C5 (amended): `GetHighestUID` is non-decreasing under `AddUID`
whenever the window is below its 100-entry capacity, or the inserted UID
is at least the current highest (the normal append-mostly case), or the
UID is already present.  In general it can decrease: inserting a small
fresh UID into a full window can evict the entry holding the maximum. -/
theorem c5_cursor_monotone (s : EmailState) (mb : String) (u : Nat)
    (h : (s.GetLastUIDs mb).length < 100 ∨ s.GetHighestUID mb ≤ u ∨
      u ∈ s.GetLastUIDs mb) :
    s.GetHighestUID mb ≤ (s.AddUID mb u).GetHighestUID mb := by
  unfold EmailState.GetHighestUID
  rw [GetLastUIDs_AddUID, goMax_eq_maxUID, goMax_eq_maxUID]
  by_cases hm : u ∈ s.GetLastUIDs mb
  · rw [show addUIDList (s.GetLastUIDs mb) u = s.GetLastUIDs mb by
      simp [addUIDList, hm]]
  · rcases h with h1 | h1 | h1
    · rw [addUIDList_of_not_mem hm]
      have hself : (s.GetLastUIDs mb ++ [u]).length ≤ 100 := by
        simp
        omega
      rw [lastN_eq_self hself]
      apply maxUID_le_of_subset
      intro x hx
      exact List.mem_append_left _ hx
    · calc maxUID (s.GetLastUIDs mb)
          ≤ u := by
            rw [EmailState.GetHighestUID, goMax_eq_maxUID] at h1
            exact h1
        _ ≤ maxUID (addUIDList (s.GetLastUIDs mb) u) :=
            le_maxUID_of_mem (mem_addUIDList_self _ _)
    · exact absurd h1 hm

/-- Witness for `c5_cursor_monotone`: adding UID 9 to the window `[4, 7]`
cannot lower the highest UID. -/
theorem c5_cursor_monotone_witness :
    (⟨[("INBOX", [4, 7])]⟩ : EmailState).GetHighestUID "INBOX" ≤
      ((⟨[("INBOX", [4, 7])]⟩ : EmailState).AddUID "INBOX" 9).GetHighestUID "INBOX" :=
  c5_cursor_monotone ⟨[("INBOX", [4, 7])]⟩ "INBOX" 9 (by decide)

set_option maxRecDepth 4000 in
/-- Counterexample to C5 as stated: on a full 100-entry window whose
oldest entry holds the maximum (200 followed by 1..99), `AddUID` of the
fresh UID 100 evicts the maximum and `GetHighestUID` drops from 200 to
100 — the cursor is not monotonic under state-mutating operations. -/
theorem c5_counterexample :
    ((⟨[("INBOX", 200 :: List.range' 1 99)]⟩ : EmailState).AddUID
        "INBOX" 100).GetHighestUID "INBOX" <
      (⟨[("INBOX", 200 :: List.range' 1 99)]⟩ : EmailState).GetHighestUID "INBOX" := by
  decide

/-! ### Claim C4 -/

/-- C4 (amended): when the fetch fails after delivering some summaries,
the delivered summaries are still processed into the in-memory state
(each delivered UID ends up marked notified), but the cycle is aborted:
`CheckForNewEmails` returns the error, the batch of new items is not
returned (`nil` subjects), and the state is not persisted. -/
theorem c4_partial_fetch_aborts (ic : ImapChecker) (mbox : List Message)
    (f : List Message → FetchOutcome) (e : String)
    (h0 : mbox.length ≠ 0)
    (hH : goMax (ic.emailState.GetLastUIDs mailboxName) ≠ 0)
    (hfe : (f (lastN (min 30 mbox.length) mbox)).fetchErr = some e) :
    (CheckForNewEmails ic mbox f).err = some e ∧
    (CheckForNewEmails ic mbox f).subjects = [] ∧
    (CheckForNewEmails ic mbox f).saved = false ∧
    (CheckForNewEmails ic mbox f).ic =
      ((f (lastN (min 30 mbox.length) mbox)).delivered.foldl
        processStep ([], ic, false)).2.1 ∧
    ∀ m ∈ (f (lastN (min 30 mbox.length) mbox)).delivered,
      m.uid ∈ (CheckForNewEmails ic mbox f).ic.notifiedUIDs := by
  rw [Check_eq_error h0 hH hfe]
  exact ⟨rfl, rfl, rfl, rfl, fun m hm => processFold_all_notified _ [] ic false m hm⟩

/-- Witness for `c4_partial_fetch_aborts` on a concrete two-message
mailbox whose fetch delivers both summaries and then fails. -/
theorem c4_partial_fetch_aborts_witness :
    (CheckForNewEmails ⟨⟨[("INBOX", [1])]⟩, [1]⟩ [⟨1, 1, "a"⟩, ⟨2, 2, "b"⟩]
        (fun ms => ⟨ms, some "connection reset"⟩)).err = some "connection reset" ∧
    (CheckForNewEmails ⟨⟨[("INBOX", [1])]⟩, [1]⟩ [⟨1, 1, "a"⟩, ⟨2, 2, "b"⟩]
        (fun ms => ⟨ms, some "connection reset"⟩)).subjects = [] ∧
    (CheckForNewEmails ⟨⟨[("INBOX", [1])]⟩, [1]⟩ [⟨1, 1, "a"⟩, ⟨2, 2, "b"⟩]
        (fun ms => ⟨ms, some "connection reset"⟩)).saved = false ∧
    (CheckForNewEmails ⟨⟨[("INBOX", [1])]⟩, [1]⟩ [⟨1, 1, "a"⟩, ⟨2, 2, "b"⟩]
        (fun ms => ⟨ms, some "connection reset"⟩)).ic =
      (((fun (ms : List Message) => (⟨ms, some "connection reset"⟩ : FetchOutcome))
          (lastN (min 30 ([⟨1, 1, "a"⟩, ⟨2, 2, "b"⟩] : List Message).length)
            [⟨1, 1, "a"⟩, ⟨2, 2, "b"⟩])).delivered.foldl
        processStep ([], ⟨⟨[("INBOX", [1])]⟩, [1]⟩, false)).2.1 ∧
    ∀ m ∈ ((fun (ms : List Message) => (⟨ms, some "connection reset"⟩ : FetchOutcome))
        (lastN (min 30 ([⟨1, 1, "a"⟩, ⟨2, 2, "b"⟩] : List Message).length)
          [⟨1, 1, "a"⟩, ⟨2, 2, "b"⟩])).delivered,
      m.uid ∈ (CheckForNewEmails ⟨⟨[("INBOX", [1])]⟩, [1]⟩ [⟨1, 1, "a"⟩, ⟨2, 2, "b"⟩]
        (fun ms => ⟨ms, some "connection reset"⟩)).ic.notifiedUIDs :=
  c4_partial_fetch_aborts ⟨⟨[("INBOX", [1])]⟩, [1]⟩ [⟨1, 1, "a"⟩, ⟨2, 2, "b"⟩]
    (fun ms => ⟨ms, some "connection reset"⟩) "connection reset"
    (by decide) (by decide) (by decide)

/-- Counterexample to C4 as stated: the fetch delivers the new summary
with UID 2 (it is processed: UID 2 is marked notified) and then reports a
failure; the cycle is aborted with the error, the batch containing the
new item is NOT returned (`subjects = []`), and nothing is persisted —
the failure is not a non-fatal warning. -/
theorem c4_counterexample :
    (CheckForNewEmails ⟨⟨[("INBOX", [1])]⟩, [1]⟩ [⟨1, 1, "a"⟩, ⟨2, 2, "b"⟩]
        (fun ms => ⟨ms, some "boom"⟩)).err = some "boom" ∧
    (CheckForNewEmails ⟨⟨[("INBOX", [1])]⟩, [1]⟩ [⟨1, 1, "a"⟩, ⟨2, 2, "b"⟩]
        (fun ms => ⟨ms, some "boom"⟩)).subjects = [] ∧
    (CheckForNewEmails ⟨⟨[("INBOX", [1])]⟩, [1]⟩ [⟨1, 1, "a"⟩, ⟨2, 2, "b"⟩]
        (fun ms => ⟨ms, some "boom"⟩)).saved = false ∧
    2 ∈ (CheckForNewEmails ⟨⟨[("INBOX", [1])]⟩, [1]⟩ [⟨1, 1, "a"⟩, ⟨2, 2, "b"⟩]
        (fun ms => ⟨ms, some "boom"⟩)).ic.notifiedUIDs ∧
    2 ∉ ([1] : List Nat) := by
  decide

/-! ### Claim C6 -/

theorem lastN_ne_nil {n : Nat} {l : List α} (hn : n ≠ 0) (hl : l ≠ []) :
    lastN n l ≠ [] := by
  intro hc
  have h1 : (lastN n l).length = 0 := by rw [hc]; rfl
  rw [lastN_length] at h1
  have h2 : l.length ≠ 0 := fun h => hl (List.length_eq_zero.mp h)
  omega

theorem Check_success_all_notified {ic : ImapChecker} {mbox : List Message}
    (h0 : mbox.length ≠ 0)
    (hH : goMax (ic.emailState.GetLastUIDs mailboxName) ≠ 0)
    (hall : ∀ m ∈ lastN (min 30 mbox.length) mbox, m.uid ∈ ic.notifiedUIDs) :
    CheckForNewEmails ic mbox idealFetch = ⟨[], [], [], ic, false, none⟩ := by
  rw [Check_eq_success h0 hH rfl]
  have hid : (idealFetch (lastN (min 30 mbox.length) mbox)).delivered.foldl
      processStep ([], ic, false) = ([], ic, false) :=
    processFold_id_of_all_notified _ [] ic false hall
  simp only [hid]
  rfl

theorem runCycle_world_eq (w : World) (mb : List Message) :
    (runCycle w mb).1 =
      ⟨(CheckForNewEmails w.ic mb idealFetch).ic,
        if (CheckForNewEmails w.ic mb idealFetch).saved
        then (CheckForNewEmails w.ic mb idealFetch).ic.emailState
        else w.disk⟩ := rfl


/-- C6 (amended): for a state on the normal polling path (non-empty
window of nonzero UIDs, window contained in the notified set, window
within its cap), running a second cycle against the mailbox unchanged
since the first yields an empty batch, performs no state write, and
leaves the world (checker and persisted file) identical; the first cycle
persists iff its processing changed the state object, and it too is empty
if every candidate was already notified. -/
theorem c6_idempotent_noop (w : World) (mbox : List Message)
    (hwne : windowOf w.ic ≠ [])
    (hw0 : ∀ u ∈ windowOf w.ic, u ≠ 0)
    (hm : ∀ m ∈ mbox, m.uid ≠ 0)
    (hinv : ∀ x ∈ windowOf w.ic, x ∈ w.ic.notifiedUIDs)
    (hcap : (windowOf w.ic).length ≤ 100) :
    (runCycle (runCycle w mbox).1 mbox).2.subjects = [] ∧
    (runCycle (runCycle w mbox).1 mbox).2.saved = false ∧
    (runCycle (runCycle w mbox).1 mbox).1 = (runCycle w mbox).1 ∧
    ((runCycle w mbox).2.saved = true ↔
      (runCycle w mbox).2.ic.emailState ≠ w.ic.emailState) ∧
    ((∀ m ∈ lastN (min 30 mbox.length) mbox, m.uid ∈ w.ic.notifiedUIDs) →
      (runCycle w mbox).2.subjects = [] ∧ (runCycle w mbox).2.saved = false) := by
  by_cases h0 : mbox.length = 0
  · have hck : CheckForNewEmails w.ic mbox idealFetch = ⟨[], [], [], w.ic, false, none⟩ :=
      Check_eq_empty idealFetch h0
    have hw1 : (runCycle w mbox).1 = w := by
      rw [runCycle_world_eq, hck]
      rfl
    refine ⟨?_, ?_, ?_, ?_, ?_⟩
    · rw [hw1]
      show (CheckForNewEmails w.ic mbox idealFetch).subjects = []
      rw [hck]
    · rw [hw1]
      show (CheckForNewEmails w.ic mbox idealFetch).saved = false
      rw [hck]
    · rw [hw1]
      exact hw1
    · show (CheckForNewEmails w.ic mbox idealFetch).saved = true ↔
        (CheckForNewEmails w.ic mbox idealFetch).ic.emailState ≠ w.ic.emailState
      rw [hck]
      show false = true ↔ w.ic.emailState ≠ w.ic.emailState
      simp
    · intro _
      constructor
      · show (CheckForNewEmails w.ic mbox idealFetch).subjects = []
        rw [hck]
      · show (CheckForNewEmails w.ic mbox idealFetch).saved = false
        rw [hck]
  · have hH1 : goMax (w.ic.emailState.GetLastUIDs mailboxName) ≠ 0 := by
      rw [goMax_eq_maxUID]
      exact maxUID_ne_zero hwne hw0
    have hck1 := @Check_eq_success w.ic mbox idealFetch h0 hH1 rfl
    set cand := lastN (min 30 mbox.length) mbox with hcand
    set folded := (idealFetch cand).delivered.foldl processStep ([], w.ic, false)
      with hfolded
    have hr1 : (runCycle w mbox).2 =
        ⟨(sortByDateDesc folded.1).map (·.subject), sortByDateDesc folded.1,
          (sortByDateDesc folded.1).map (·.uid), folded.2.1, folded.2.2, none⟩ := by
      rw [show (runCycle w mbox).2 = CheckForNewEmails w.ic mbox idealFetch from rfl, hck1]
    rcases processFold_window (idealFetch cand).delivered [] w.ic false hinv hcap with
      ⟨hwin1, hsub1, hcap1⟩
    rw [← hfolded] at hwin1 hsub1 hcap1
    have hall1 : ∀ m ∈ cand, m.uid ∈ folded.2.1.notifiedUIDs := by
      intro m hm2
      exact processFold_all_notified _ [] w.ic false m hm2
    have hwne1 : windowOf folded.2.1 ≠ [] := by
      rw [hwin1]
      apply lastN_ne_nil (by omega)
      intro hc
      exact hwne (List.append_eq_nil.mp hc).1
    have hw01 : ∀ u ∈ windowOf folded.2.1, u ≠ 0 := by
      intro u hu
      rw [hwin1] at hu
      have hu2 := lastN_subset _ _ hu
      rcases List.mem_append.mp hu2 with h1 | h1
      · exact hw0 u h1
      · simp only [List.length_nil, List.drop_zero] at h1
        have hcnd : u ∈ cand.map (·.uid) := by
          have := (processFold_news_iff (idealFetch cand).delivered [] w.ic false u).mp
            (by rw [← hfolded]; exact h1)
          rcases this with hc | ⟨h2, _⟩
          · exact absurd hc (by simp)
          · exact h2
        rcases List.mem_map.mp hcnd with ⟨m3, hm3, hmu3⟩
        have hmb : m3 ∈ mbox := lastN_subset _ _ hm3
        rw [← hmu3]
        exact hm m3 hmb
    have hH2 : goMax (folded.2.1.emailState.GetLastUIDs mailboxName) ≠ 0 := by
      rw [goMax_eq_maxUID]
      exact maxUID_ne_zero hwne1 hw01
    have hck2 : CheckForNewEmails folded.2.1 mbox idealFetch =
        ⟨[], [], [], folded.2.1, false, none⟩ :=
      Check_success_all_notified h0 hH2 (by rw [← hcand]; exact hall1)
    have hw1ic : (runCycle w mbox).1.ic = folded.2.1 := by
      rw [runCycle_world_eq, hck1]
    refine ⟨?_, ?_, ?_, ?_, ?_⟩
    · rw [show (runCycle (runCycle w mbox).1 mbox).2 =
          CheckForNewEmails (runCycle w mbox).1.ic mbox idealFetch from rfl, hw1ic, hck2]
    · rw [show (runCycle (runCycle w mbox).1 mbox).2 =
          CheckForNewEmails (runCycle w mbox).1.ic mbox idealFetch from rfl, hw1ic, hck2]
    · rw [runCycle_world_eq ((runCycle w mbox).1) mbox, hw1ic, hck2]
      show (⟨folded.2.1, (runCycle w mbox).1.disk⟩ : World) = (runCycle w mbox).1
      rw [← hw1ic]
    · rw [hr1]
      show folded.2.2 = true ↔ folded.2.1.emailState ≠ w.ic.emailState
      constructor
      · intro htrue
        have hΔne : folded.1 ≠ [] := by
          rw [hfolded] at htrue ⊢
          exact processFold_changed_news _ [] w.ic htrue
        have hΔune : folded.1.map (·.uid) ≠ [] := by
          intro hc
          exact hΔne (List.map_eq_nil_iff.mp hc)
        rcases exists_mem_lastN_append (windowOf w.ic) hΔune with ⟨u, huΔ, huwin⟩
        have hufresh : u ∉ w.ic.notifiedUIDs := by
          have := (processFold_news_iff (idealFetch cand).delivered [] w.ic false u).mp
            (by rw [← hfolded]; exact huΔ)
          rcases this with hc | ⟨_, h2⟩
          · exact absurd hc (by simp)
          · exact h2
        have huw0 : u ∉ windowOf w.ic := fun hc => hufresh (hinv u hc)
        intro heq
        have hsame : windowOf folded.2.1 = windowOf w.ic := by
          unfold windowOf
          rw [heq]
        rw [hwin1] at hsame
        simp only [List.length_nil, List.drop_zero] at hsame
        rw [hsame] at huwin
        exact huw0 huwin
      · intro hne
        by_contra hflag
        have hfalse : folded.2.2 = false := by
          cases hb : folded.2.2
          · rfl
          · exact absurd hb hflag
        have hidf : folded = ([], w.ic, false) := by
          rw [hfolded] at hfalse ⊢
          exact processFold_of_flag_false _ [] w.ic hfalse
        rw [hidf] at hne
        exact hne rfl
    · intro hall
      have hckid : CheckForNewEmails w.ic mbox idealFetch =
          ⟨[], [], [], w.ic, false, none⟩ :=
        Check_success_all_notified h0 hH1 hall
      constructor
      · rw [show (runCycle w mbox).2 = CheckForNewEmails w.ic mbox idealFetch from rfl,
          hckid]
      · rw [show (runCycle w mbox).2 = CheckForNewEmails w.ic mbox idealFetch from rfl,
          hckid]

/-- Witness for `c6_idempotent_noop` on a concrete initialized state and
two-message mailbox. -/
theorem c6_idempotent_noop_witness :
    (runCycle (runCycle ⟨⟨⟨[("INBOX", [1])]⟩, [1]⟩, ⟨[("INBOX", [1])]⟩⟩
        [⟨1, 1, "a"⟩, ⟨2, 2, "b"⟩]).1 [⟨1, 1, "a"⟩, ⟨2, 2, "b"⟩]).2.subjects = [] ∧
    (runCycle (runCycle ⟨⟨⟨[("INBOX", [1])]⟩, [1]⟩, ⟨[("INBOX", [1])]⟩⟩
        [⟨1, 1, "a"⟩, ⟨2, 2, "b"⟩]).1 [⟨1, 1, "a"⟩, ⟨2, 2, "b"⟩]).2.saved = false ∧
    (runCycle (runCycle ⟨⟨⟨[("INBOX", [1])]⟩, [1]⟩, ⟨[("INBOX", [1])]⟩⟩
        [⟨1, 1, "a"⟩, ⟨2, 2, "b"⟩]).1 [⟨1, 1, "a"⟩, ⟨2, 2, "b"⟩]).1 =
      (runCycle ⟨⟨⟨[("INBOX", [1])]⟩, [1]⟩, ⟨[("INBOX", [1])]⟩⟩
        [⟨1, 1, "a"⟩, ⟨2, 2, "b"⟩]).1 ∧
    ((runCycle ⟨⟨⟨[("INBOX", [1])]⟩, [1]⟩, ⟨[("INBOX", [1])]⟩⟩
        [⟨1, 1, "a"⟩, ⟨2, 2, "b"⟩]).2.saved = true ↔
      (runCycle ⟨⟨⟨[("INBOX", [1])]⟩, [1]⟩, ⟨[("INBOX", [1])]⟩⟩
        [⟨1, 1, "a"⟩, ⟨2, 2, "b"⟩]).2.ic.emailState ≠
        (⟨⟨⟨[("INBOX", [1])]⟩, [1]⟩, ⟨[("INBOX", [1])]⟩⟩ : World).ic.emailState) ∧
    ((∀ m ∈ lastN (min 30 ([⟨1, 1, "a"⟩, ⟨2, 2, "b"⟩] : List Message).length)
        ([⟨1, 1, "a"⟩, ⟨2, 2, "b"⟩] : List Message),
        m.uid ∈ (⟨⟨⟨[("INBOX", [1])]⟩, [1]⟩, ⟨[("INBOX", [1])]⟩⟩ : World).ic.notifiedUIDs) →
      (runCycle ⟨⟨⟨[("INBOX", [1])]⟩, [1]⟩, ⟨[("INBOX", [1])]⟩⟩
        [⟨1, 1, "a"⟩, ⟨2, 2, "b"⟩]).2.subjects = [] ∧
      (runCycle ⟨⟨⟨[("INBOX", [1])]⟩, [1]⟩, ⟨[("INBOX", [1])]⟩⟩
        [⟨1, 1, "a"⟩, ⟨2, 2, "b"⟩]).2.saved = false) :=
  c6_idempotent_noop ⟨⟨⟨[("INBOX", [1])]⟩, [1]⟩, ⟨[("INBOX", [1])]⟩⟩
    [⟨1, 1, "a"⟩, ⟨2, 2, "b"⟩]
    (by decide) (by decide) (by decide) (by decide) (by decide)

/-- Counterexample to C6 as stated: starting from an empty persisted
state against an 11-message mailbox that never changes, the first cycle
baselines on only the 10 most recent messages (and returns an empty
batch), so the second cycle — with the mailbox unchanged in between —
returns a non-empty batch and performs a state write. -/
theorem c6_counterexample :
    (runCycle (runCycle (startWorld NewEmailState) (natMsgs 1 11)).1
        (natMsgs 1 11)).2.subjects ≠ [] ∧
    (runCycle (runCycle (startWorld NewEmailState) (natMsgs 1 11)).1
        (natMsgs 1 11)).2.saved = true ∧
    (runCycle (startWorld NewEmailState) (natMsgs 1 11)).2.subjects = [] := by
  decide

/-! ### Claim C7: serialization and the temp-file-then-rename protocol -/

/-- Length-prefixed encoding of a list, given an element encoder. -/
def encList (enc : α → List Nat) (l : List α) : List Nat :=
  l.length :: (l.map enc).flatten

/-- Decoder for `n` consecutive elements. -/
def decListAux (dec : List Nat → Option (α × List Nat)) :
    Nat → List Nat → Option (List α × List Nat)
  | 0, bs => some ([], bs)
  | n + 1, bs =>
    match dec bs with
    | none => none
    | some (a, bs1) =>
      match decListAux dec n bs1 with
      | none => none
      | some (as, bs2) => some (a :: as, bs2)

/-- Decoder matching `encList`. -/
def decList (dec : List Nat → Option (α × List Nat)) :
    List Nat → Option (List α × List Nat)
  | [] => none
  | n :: bs => decListAux dec n bs

theorem decListAux_encode {dec : List Nat → Option (α × List Nat)}
    {enc : α → List Nat}
    (hround : ∀ (a : α) (bs : List Nat), dec (enc a ++ bs) = some (a, bs)) :
    ∀ (l : List α) (bs : List Nat),
      decListAux dec l.length ((l.map enc).flatten ++ bs) = some (l, bs) := by
  intro l
  induction l with
  | nil => intro bs; simp [decListAux]
  | cons a rest ih =>
    intro bs
    show decListAux dec (rest.length + 1) (((a :: rest).map enc).flatten ++ bs) = _
    have hbytes : ((a :: rest).map enc).flatten ++ bs =
        enc a ++ ((rest.map enc).flatten ++ bs) := by
      simp
    rw [hbytes]
    unfold decListAux
    rw [hround a _]
    show (match decListAux dec rest.length ((rest.map enc).flatten ++ bs) with
      | none => none
      | some (as, bs2) => some (a :: as, bs2)) = some (a :: rest, bs)
    rw [ih bs]

theorem decList_encList {dec : List Nat → Option (α × List Nat)}
    {enc : α → List Nat}
    (hround : ∀ (a : α) (bs : List Nat), dec (enc a ++ bs) = some (a, bs))
    (l : List α) (bs : List Nat) :
    decList dec (encList enc l ++ bs) = some (l, bs) := by
  show decList dec (l.length :: ((l.map enc).flatten ++ bs)) = some (l, bs)
  unfold decList
  exact decListAux_encode hround l bs

/-- Character token. -/
def encChar (c : Char) : List Nat := [c.toNat]

/-- Character token decoder. -/
def decChar : List Nat → Option (Char × List Nat)
  | [] => none
  | n :: bs => some (Char.ofNat n, bs)

theorem decChar_encChar (c : Char) (bs : List Nat) :
    decChar (encChar c ++ bs) = some (c, bs) := by
  simp [encChar, decChar, Char.ofNat_toNat]

/-- Natural-number token. -/
def encNatTok (n : Nat) : List Nat := [n]

/-- Natural-number token decoder. -/
def decNatTok : List Nat → Option (Nat × List Nat)
  | [] => none
  | n :: bs => some (n, bs)

theorem decNatTok_encNatTok (n : Nat) (bs : List Nat) :
    decNatTok (encNatTok n ++ bs) = some (n, bs) := rfl

/-- String record field: length-prefixed characters. -/
def encStr (s : String) : List Nat := encList encChar s.data

/-- String field decoder. -/
def decStr (bs : List Nat) : Option (String × List Nat) :=
  match decList decChar bs with
  | none => none
  | some (cs, rest) => some (String.mk cs, rest)

theorem decStr_encStr (s : String) (bs : List Nat) :
    decStr (encStr s ++ bs) = some (s, bs) := by
  unfold decStr encStr
  rw [decList_encList decChar_encChar s.data bs]

/-- UID-list record field. -/
def encNatList (l : List Nat) : List Nat := encList encNatTok l

/-- UID-list field decoder. -/
def decNatList (bs : List Nat) : Option (List Nat × List Nat) :=
  decList decNatTok bs

theorem decNatList_encNatList (l : List Nat) (bs : List Nat) :
    decNatList (encNatList l ++ bs) = some (l, bs) :=
  decList_encList decNatTok_encNatTok l bs

/-- One mailbox entry of the state record: key then UID list. -/
def encEntry (e : String × List Nat) : List Nat := encStr e.1 ++ encNatList e.2

/-- Entry decoder. -/
def decEntry (bs : List Nat) : Option ((String × List Nat) × List Nat) :=
  match decStr bs with
  | none => none
  | some (k, bs1) =>
    match decNatList bs1 with
    | none => none
    | some (v, bs2) => some ((k, v), bs2)

theorem decEntry_encEntry (e : String × List Nat) (bs : List Nat) :
    decEntry (encEntry e ++ bs) = some (e, bs) := by
  unfold decEntry encEntry
  rw [List.append_assoc, decStr_encStr]
  show (match decNatList (encNatList e.2 ++ bs) with
    | none => none
    | some (v, bs2) => some ((e.1, v), bs2)) = some (e, bs)
  rw [decNatList_encNatList]

/-- Serialization of the whole state record (the `json.MarshalIndent`
role: a complete, parseable rendering of `lastUIDs`). -/
def encodeState (s : EmailState) : List Nat := encList encEntry s.lastUIDs

/-- Parse of a state file; `none` models a parse failure
(`StateCorruptionError`): any leftover or truncated input is rejected. -/
def decodeState (bs : List Nat) : Option EmailState :=
  match decList decEntry bs with
  | some (l, []) => some ⟨l⟩
  | _ => none

theorem decodeState_encodeState (s : EmailState) :
    decodeState (encodeState s) = some s := by
  unfold decodeState
  have h := decList_encList decEntry_encEntry s.lastUIDs []
  rw [List.append_nil] at h
  rw [show encodeState s = encList encEntry s.lastUIDs from rfl, h]

/-- Filesystem visible to `SaveEmailState`/`LoadEmailState`: the
canonical state file and the sibling temporary file, each holding bytes
or absent. -/
structure Fs where
  canonical : Option (List Nat)
  temp : Option (List Nat)
deriving DecidableEq

/-- LoadEmailState: a missing file is a fresh empty state; otherwise the
canonical bytes are parsed (parse failure modelled as `none`). -/
def LoadEmailState (fs : Fs) : Option EmailState :=
  match fs.canonical with
  | none => some NewEmailState
  | some bytes => decodeState bytes

/-- First step of `SaveEmailState`: write the serialized state to the
sibling temporary path. -/
def saveWriteTemp (fs : Fs) (s : EmailState) : Fs :=
  { fs with temp := some (encodeState s) }

/-- Second step of `SaveEmailState`: atomically rename the temporary file
over the canonical path. -/
def saveRename (fs : Fs) : Fs :=
  { canonical := fs.temp, temp := none }

/-- SaveEmailState: write-temp then rename. -/
def SaveEmailState (fs : Fs) (s : EmailState) : Fs :=
  saveRename (saveWriteTemp fs s)

/-- A save interrupted before the rename: only a prefix (possibly all) of
the serialized bytes reached the temporary file; the canonical path is
untouched. -/
def saveInterrupted (fs : Fs) (s : EmailState) (k : Nat) : Fs :=
  { fs with temp := some ((encodeState s).take k) }

/-- C7: `SaveEmailState` writes the full serialized state to the sibling
temporary path and only then renames it over the canonical path, so a
load after a completed save returns the new state, while a load after a
save interrupted at any point before the rename returns the previous
state — never a truncated or corrupted one. -/
theorem c7_crash_safe_save (fs : Fs) (s0 s : EmailState)
    (h : LoadEmailState fs = some s0) :
    (∀ k : Nat, LoadEmailState (saveInterrupted fs s k) = some s0) ∧
    LoadEmailState (SaveEmailState fs s) = some s := by
  constructor
  · intro k
    show (match fs.canonical with
      | none => some NewEmailState
      | some bytes => decodeState bytes) = some s0
    exact h
  · show decodeState (encodeState s) = some s
    exact decodeState_encodeState s

/-- Witness for `c7_crash_safe_save` on a concrete prior state and a
concrete new state. -/
theorem c7_crash_safe_save_witness :
    (∀ k : Nat,
      LoadEmailState (saveInterrupted
        ⟨some (encodeState ⟨[("INBOX", [3])]⟩), none⟩ ⟨[("INBOX", [4, 5])]⟩ k) =
        some ⟨[("INBOX", [3])]⟩) ∧
    LoadEmailState (SaveEmailState
      ⟨some (encodeState ⟨[("INBOX", [3])]⟩), none⟩ ⟨[("INBOX", [4, 5])]⟩) =
      some ⟨[("INBOX", [4, 5])]⟩ :=
  c7_crash_safe_save ⟨some (encodeState ⟨[("INBOX", [3])]⟩), none⟩
    ⟨[("INBOX", [3])]⟩ ⟨[("INBOX", [4, 5])]⟩
    (decodeState_encodeState ⟨[("INBOX", [3])]⟩)

/-! ### Claim C9 -/

/-- C9: the batch of every poll cycle is sorted by timestamp descending
(the subjects are the subject projection of that sorted list), and on the
concrete scenario with new messages at timestamps 1 < 2 < 3 the returned
subjects are in order s3, s2, s1. -/
theorem c9_batch_sorted_desc :
    (∀ (ic : ImapChecker) (mbox : List Message) (f : List Message → FetchOutcome),
        (CheckForNewEmails ic mbox f).newSorted.Pairwise (fun a b => b.date ≤ a.date) ∧
        (CheckForNewEmails ic mbox f).subjects =
          (CheckForNewEmails ic mbox f).newSorted.map (·.subject))
    ∧ (CheckForNewEmails ⟨⟨[("INBOX", [1])]⟩, [1]⟩
        [⟨1, 0, "old"⟩, ⟨2, 1, "s1"⟩, ⟨3, 2, "s2"⟩, ⟨4, 3, "s3"⟩]
        idealFetch).subjects = ["s3", "s2", "s1"] := by
  constructor
  · intro ic mbox f
    by_cases h0 : mbox.length = 0
    · rw [Check_eq_empty f h0]
      exact ⟨List.Pairwise.nil, rfl⟩
    · by_cases hH : goMax (ic.emailState.GetLastUIDs mailboxName) = 0
      · rw [Check_eq_baseline f h0 hH]
        exact ⟨List.Pairwise.nil, rfl⟩
      · cases hfe : (f (lastN (min 30 mbox.length) mbox)).fetchErr with
        | some e =>
          rw [Check_eq_error h0 hH hfe]
          exact ⟨List.Pairwise.nil, rfl⟩
        | none =>
          rw [Check_eq_success h0 hH hfe]
          exact ⟨sortByDateDesc_sorted _, rfl⟩
  · decide

/-! ### Claim C10 -/

theorem Init_window_inv (ic : ImapChecker) (mbox : List Message)
    (hsub : ∀ x ∈ windowOf ic, x ∈ ic.notifiedUIDs)
    (hcap : (windowOf ic).length ≤ 100) :
    (∀ x ∈ windowOf (InitializeEmailTracking ic mbox).ic,
      x ∈ (InitializeEmailTracking ic mbox).ic.notifiedUIDs) ∧
    (windowOf (InitializeEmailTracking ic mbox).ic).length ≤ 100 := by
  by_cases h : ic.notifiedUIDs ≠ []
  · rw [Init_eq_existing mbox h]
    exact ⟨hsub, hcap⟩
  · push_neg at h
    by_cases h0 : mbox.length = 0
    · rw [Init_eq_emptyMbox h h0]
      exact ⟨hsub, hcap⟩
    · rw [Init_eq_baseline h h0]
      exact ⟨baselineFold_window_sub _ _ hsub, baselineFold_window_cap _ _ hcap⟩

theorem Check_window_inv (ic : ImapChecker) (mbox : List Message)
    (f : List Message → FetchOutcome)
    (hsub : ∀ x ∈ windowOf ic, x ∈ ic.notifiedUIDs)
    (hcap : (windowOf ic).length ≤ 100) :
    (∀ x ∈ windowOf (CheckForNewEmails ic mbox f).ic,
      x ∈ (CheckForNewEmails ic mbox f).ic.notifiedUIDs) ∧
    (windowOf (CheckForNewEmails ic mbox f).ic).length ≤ 100 := by
  by_cases h0 : mbox.length = 0
  · rw [Check_eq_empty f h0]
    exact ⟨hsub, hcap⟩
  · by_cases hH : goMax (ic.emailState.GetLastUIDs mailboxName) = 0
    · rw [Check_eq_baseline f h0 hH]
      exact Init_window_inv ic mbox hsub hcap
    · cases hfe : (f (lastN (min 30 mbox.length) mbox)).fetchErr with
      | some e =>
        rw [Check_eq_error h0 hH hfe]
        rcases processFold_window (f (lastN (min 30 mbox.length) mbox)).delivered
          [] ic false hsub hcap with ⟨_, h2, h3⟩
        exact ⟨h2, h3⟩
      | none =>
        rw [Check_eq_success h0 hH hfe]
        rcases processFold_window (f (lastN (min 30 mbox.length) mbox)).delivered
          [] ic false hsub hcap with ⟨_, h2, h3⟩
        exact ⟨h2, h3⟩

/-- C10: within a run the in-memory suppression set `notifiedUIDs` only
grows — neither a poll cycle nor baseline initialization ever removes an
identifier — and the persisted window stays a subset of it (within its
100-entry cap) across every cycle, baseline, and reset; at process start
exactly the persisted window (at most 100 identifiers) is carried into
the suppression set. -/
theorem c10_notified_superset :
    (∀ (ic : ImapChecker) (mbox : List Message) (f : List Message → FetchOutcome)
        (u : Nat), u ∈ ic.notifiedUIDs →
        u ∈ (CheckForNewEmails ic mbox f).ic.notifiedUIDs)
    ∧ (∀ (ic : ImapChecker) (mbox : List Message) (u : Nat), u ∈ ic.notifiedUIDs →
        u ∈ (InitializeEmailTracking ic mbox).ic.notifiedUIDs)
    ∧ (∀ (ic : ImapChecker) (mbox : List Message) (f : List Message → FetchOutcome),
        (∀ x ∈ windowOf ic, x ∈ ic.notifiedUIDs) → (windowOf ic).length ≤ 100 →
        (∀ x ∈ windowOf (CheckForNewEmails ic mbox f).ic,
          x ∈ (CheckForNewEmails ic mbox f).ic.notifiedUIDs) ∧
        (windowOf (CheckForNewEmails ic mbox f).ic).length ≤ 100)
    ∧ (∀ mbox : List Message,
        (∀ x ∈ windowOf (ResetState mbox), x ∈ (ResetState mbox).notifiedUIDs) ∧
        (windowOf (ResetState mbox)).length ≤ 100)
    ∧ ∀ disk : EmailState,
        (NewImapChecker disk).notifiedUIDs = disk.GetLastUIDs mailboxName ∧
        ∀ x ∈ windowOf (NewImapChecker disk), x ∈ (NewImapChecker disk).notifiedUIDs := by
  refine ⟨?_, ?_, ?_, ?_, ?_⟩
  · intro ic mbox f u hu
    exact Check_notified_mono ic mbox f u hu
  · intro ic mbox u hu
    exact Init_notified_mono ic mbox u hu
  · intro ic mbox f hsub hcap
    exact Check_window_inv ic mbox f hsub hcap
  · intro mbox
    exact Init_window_inv ⟨NewEmailState, []⟩ mbox
      (fun x hx => absurd hx (List.not_mem_nil x)) (by decide)
  · intro disk
    exact ⟨rfl, fun x hx => hx⟩

/-- Witness for `c10_notified_superset`: the window-subset invariant
evaluated through one concrete cycle. -/
theorem c10_notified_superset_witness :
    (∀ x ∈ windowOf (CheckForNewEmails ⟨⟨[("INBOX", [1])]⟩, [1]⟩
        [⟨1, 1, "a"⟩, ⟨2, 2, "b"⟩] idealFetch).ic,
      x ∈ (CheckForNewEmails ⟨⟨[("INBOX", [1])]⟩, [1]⟩
        [⟨1, 1, "a"⟩, ⟨2, 2, "b"⟩] idealFetch).ic.notifiedUIDs) ∧
    (windowOf (CheckForNewEmails ⟨⟨[("INBOX", [1])]⟩, [1]⟩
        [⟨1, 1, "a"⟩, ⟨2, 2, "b"⟩] idealFetch).ic).length ≤ 100 :=
  c10_notified_superset.2.2.1 ⟨⟨[("INBOX", [1])]⟩, [1]⟩
    [⟨1, 1, "a"⟩, ⟨2, 2, "b"⟩] idealFetch (by decide) (by decide)
